import Mathlib

/-!
Verification of the discrete-curves SRV (square root velocity) machinery of
geomstats (file geomstats/geometry/discrete_curves.py), over a shallow
embedding in real arithmetic.  Curves are finite sequences of points of a
Euclidean ambient space, represented as functions from sample indices to
coordinate vectors.  The external collaborators (the Euclidean ambient
metric, the product L2 metric over landmarks, the dense linear solver) are
modelled from the documented contracts of the specification.
-/

namespace DiscreteCurves

noncomputable section

/-- Ambient vectors: real coordinate vectors of dimension d. -/
abbrev Vec (d : ℕ) := Fin d → ℝ

/-- Modelled from the spec: EuclideanMetric.inner_product, the standard dot
product of two coordinate vectors (geomstats/geometry/euclidean.py is not
part of the sources; section 6 of the spec documents the contract). -/
def euclidInner {d : ℕ} (x y : Vec d) : ℝ := ∑ j, x j * y j

/-- Modelled from the spec: EuclideanMetric.norm, the square root of the
inner product of a vector with itself. -/
def euclidNorm {d : ℕ} (x : Vec d) : ℝ := Real.sqrt (euclidInner x x)

/-- Modelled from the spec: EuclideanMetric.log, the difference of the two
points in a flat space. -/
def euclidLog {d : ℕ} (point basePoint : Vec d) : Vec d := point - basePoint

/-- Modelled from the spec: EuclideanMetric.exp, translation of the base
point by the tangent vector in a flat space. -/
def euclidExp {d : ℕ} (tangentVec basePoint : Vec d) : Vec d :=
  basePoint + tangentVec

/-- Modelled from the spec: EuclideanMetric.dist, the norm of the
difference of the two points. -/
def euclidDist {d : ℕ} (x y : Vec d) : ℝ := euclidNorm (x - y)

/-- Row-major flattening of a batch of N curves with n sampling points, as
performed by gs.reshape in square_root_velocity; indices out of range give
a junk value of zero (the code never reads them). -/
def flatten {N n d : ℕ} (c : Fin N → Fin n → Vec d) : ℕ → Vec d :=
  fun m =>
    if h : m < N * n then
      c ⟨m / n, Nat.div_lt_of_lt_mul (by rw [Nat.mul_comm] at h; exact h)⟩
        ⟨m % n, Nat.mod_lt m (Nat.pos_of_ne_zero (by rintro rfl; simp at h))⟩
    else 0

/-- Velocity of the flattened batch: for each consecutive pair of rows, the
ambient logarithm scaled by n_sampling_points - 1
(SRVMetric.square_root_velocity, lines 283-285). -/
def velocityFlat {N n d : ℕ} (c : Fin N → Fin n → Vec d) : ℕ → Vec d :=
  fun m => ((n - 1 : ℕ) : ℝ) • euclidLog (flatten c (m + 1)) (flatten c m)

/-- Square root velocity of the flattened batch: each velocity divided by
the square root of its ambient norm
(SRVMetric.square_root_velocity, lines 286-288). -/
def srvFlat {N n d : ℕ} (c : Fin N → Fin n → Vec d) : ℕ → Vec d :=
  fun m =>
    (1 / Real.sqrt (euclidNorm (velocityFlat c m))) • velocityFlat c m

/-- Indices kept by the batch-boundary mask of square_root_velocity
(lines 290-291): all flat segment indices except those whose successor
starts a new curve. -/
def keptIndices (N n : ℕ) : List ℕ :=
  (List.range (N * n - 1)).filter (fun idx => ¬ ((idx + 1) % n = 0))

/-- SRVMetric.square_root_velocity (lines 260-294) on a batch of N curves
of n sampling points: flatten, compute velocities, normalize, drop the
masked batch-boundary segments and reshape to one row of n - 1 segments
per curve. -/
def squareRootVelocityBatch {N n d : ℕ} (c : Fin N → Fin n → Vec d) :
    Fin N → Fin (n - 1) → Vec d :=
  fun k i => srvFlat c ((keptIndices N n).getD (k.1 * (n - 1) + i.1) 0)

/-- SRVMetric.square_root_velocity on a single curve: the code expands the
curve to a batch of one with gs.to_ndarray and reads the single row. -/
def squareRootVelocity {n d : ℕ} (c : Fin n → Vec d) : Fin (n - 1) → Vec d :=
  squareRootVelocityBatch (fun _ : Fin 1 => c) 0

/-- SRVMetric.square_root_velocity_inverse (lines 296-332) on a single
curve: each srv vector scaled by its norm over the number of segments
gives a displacement, and the curve is the cumulative sum of the starting
point followed by the displacements. -/
def squareRootVelocityInverse {m d : ℕ} (srv : Fin m → Vec d)
    (startingPoint : Vec d) : Fin (m + 1) → Vec d :=
  fun j => startingPoint +
    ∑ i ∈ Finset.range j.1,
      if h : i < m then
        ((1 / (m : ℝ)) * euclidNorm (srv ⟨i, h⟩)) • srv ⟨i, h⟩
      else 0

/-- SRVMetric.pointwise_inner_product (lines 206-238): the ambient inner
product of the two tangent vectors at each sample point of the base curve
(the Euclidean ambient inner product does not depend on the base point). -/
def pointwiseInnerProduct {n d : ℕ} (tangentVecA tangentVecB : Fin n → Vec d)
    (_baseCurve : Fin n → Vec d) : Fin n → ℝ :=
  fun i => euclidInner (tangentVecA i) (tangentVecB i)

/-- SRVMetric.pointwise_norm (lines 240-258): square root of the pointwise
inner product of a tangent vector with itself. -/
def pointwiseNorm {n d : ℕ} (tangentVec baseCurve : Fin n → Vec d) :
    Fin n → ℝ :=
  fun i => Real.sqrt (pointwiseInnerProduct tangentVec tangentVec baseCurve i)

/-- SRVMetric.d_square_root_velocity (lines 334-355): differential of the
square root velocity transform along a tangent vector, on a single curve. -/
def dSquareRootVelocity {n d : ℕ} (tangentVec curve : Fin (n + 1) → Vec d) :
    Fin n → Vec d :=
  fun i =>
    let nSamplingPoints : ℝ := ((n + 1 : ℕ) : ℝ)
    let dVec := nSamplingPoints • (tangentVec i.succ - tangentVec i.castSucc)
    let velocityVec := nSamplingPoints • (curve i.succ - curve i.castSucc)
    let velocityNorm := euclidNorm velocityVec
    let unitVelocityVec := (1 / velocityNorm) • velocityVec
    let dVecTangential := euclidInner dVec unitVelocityVec • unitVelocityVec
    let dSrvVec := dVec - (1 / 2 : ℝ) • dVecTangential
    (1 / velocityNorm ^ ((1 : ℝ) / 2)) • dSrvVec

/-- SRVMetric.inner_product (lines 357-373): pullback of the product L2
metric through the differential of the square root velocity transform,
normalized by the number of sampling points.  The L2 inner product of the
landmark metric is the sum of the ambient inner products
(modelled from the spec, section 6). -/
def srvMetricInnerProduct {n d : ℕ}
    (tangentVecA tangentVecB curve : Fin (n + 1) → Vec d) : ℝ :=
  (∑ i, euclidInner (dSquareRootVelocity tangentVecA curve i)
      (dSquareRootVelocity tangentVecB curve i)) / ((n + 1 : ℕ) : ℝ)

/-- SRVMetric.srv_inner_product (lines 375-396): L2 inner product of two
srv representations divided by the number of rows. -/
def srvInnerProduct {m d : ℕ} (srv1 srv2 : Fin m → Vec d) : ℝ :=
  (∑ i, euclidInner (srv1 i) (srv2 i)) / (m : ℝ)

/-- SRVMetric.srv_norm (lines 398-415): square root of the srv inner
product of a representation with itself. -/
def srvNorm {m d : ℕ} (srv : Fin m → Vec d) : ℝ :=
  Real.sqrt (srvInnerProduct srv srv)

/-- SRVMetric.exp (lines 417-465) on a single curve.  The product L2
exponential on a flat ambient space is the pointwise translation of the
base srv by the initial derivative (modelled from the spec, section 4.2). -/
def srvExp {n d : ℕ} (tangentVec basePoint : Fin (n + 1) → Vec d) :
    Fin (n + 1) → Vec d :=
  let baseCurveSrv : Fin n → Vec d := squareRootVelocity basePoint
  let tangentVecDerivative : Fin n → Vec d := fun i =>
    (n : ℝ) • (tangentVec i.succ - tangentVec i.castSucc)
  let baseCurveVelocity : Fin n → Vec d := fun i =>
    (n : ℝ) • (basePoint i.succ - basePoint i.castSucc)
  let basePrefix : Fin n → Vec d := fun i => basePoint i.castSucc
  let baseCurveVelocityNorm : Fin n → ℝ :=
    pointwiseNorm baseCurveVelocity basePrefix
  let innerProd : Fin n → ℝ :=
    pointwiseInnerProduct tangentVecDerivative baseCurveVelocity basePrefix
  let coef1 : Fin n → ℝ := fun i => 1 / Real.sqrt (baseCurveVelocityNorm i)
  let coef2 : Fin n → ℝ := fun i =>
    -1 / (2 * baseCurveVelocityNorm i ^ ((5 : ℝ) / 2)) * innerProd i
  let srvInitialDerivative : Fin n → Vec d := fun i =>
    coef1 i • tangentVecDerivative i + coef2 i • baseCurveVelocity i
  let endCurveSrv : Fin n → Vec d := fun i =>
    baseCurveSrv i + srvInitialDerivative i
  let endCurveStartingPoint : Vec d := euclidExp (tangentVec 0) (basePoint 0)
  squareRootVelocityInverse endCurveSrv endCurveStartingPoint

/-- SRVMetric.log (lines 467-518) on a single curve: velocity-aligned
correction terms accumulated by a cumulative sum, seeded by the ambient
logarithm between the starting points. -/
def srvLog {n d : ℕ} (point basePoint : Fin (n + 1) → Vec d) :
    Fin (n + 1) → Vec d :=
  let curveSrv : Fin n → Vec d := squareRootVelocity point
  let baseCurveSrv : Fin n → Vec d := squareRootVelocity basePoint
  let baseCurveVelocity : Fin n → Vec d := fun i =>
    (n : ℝ) • (basePoint i.succ - basePoint i.castSucc)
  let basePrefix : Fin n → Vec d := fun i => basePoint i.castSucc
  let baseCurveVelocityNorm : Fin n → ℝ :=
    pointwiseNorm baseCurveVelocity basePrefix
  let innerProd : Fin n → ℝ := pointwiseInnerProduct
    (fun i => curveSrv i - baseCurveSrv i) baseCurveVelocity basePrefix
  let coef1 : Fin n → ℝ := fun i => Real.sqrt (baseCurveVelocityNorm i)
  let coef2 : Fin n → ℝ := fun i =>
    1 / baseCurveVelocityNorm i ^ ((3 : ℝ) / 2) * innerProd i
  let logDerivative : Fin n → Vec d := fun i =>
    coef1 i • (curveSrv i - baseCurveSrv i) + coef2 i • baseCurveVelocity i
  let logStartingPoint : Vec d := euclidLog (point 0) (basePoint 0)
  fun j => logStartingPoint + (1 / (n : ℝ)) •
    ∑ i ∈ Finset.range j.1, (if h : i < n then logDerivative ⟨i, h⟩ else 0)

/-- Kind of the ambient metric attached to a metric object.  The code
dispatches on isinstance checks against EuclideanMetric; the non-Euclidean
constructors stand for the other manifolds of the library. -/
inductive AmbientKind where
  | euclidean (dim : ℕ)
  | sphere (dim : ℕ)
  | hyperbolic (dim : ℕ)
deriving DecidableEq

/-- Result of the isinstance check against EuclideanMetric. -/
def AmbientKind.isEuclidean : AmbientKind → Bool
  | AmbientKind.euclidean _ => true
  | _ => false

/-- Result of the planarity check of the closed-curve projection: the
ambient metric must be Euclidean of dimension 2. -/
def AmbientKind.isPlanarEuclidean : AmbientKind → Bool
  | AmbientKind.euclidean dim => dim == 2
  | _ => false

/-- Error kinds surfaced by the operations: unsupported ambient geometry
(AssertionError), invalid input (ValueError), inconsistent shooting vector
(RuntimeError) and mismatched curve shapes (ValueError). -/
inductive SrvError where
  | unsupportedGeometry
  | invalidInput
  | inconsistentShootingVector
  | shapeMismatch
deriving DecidableEq

/-- square_root_velocity_inverse with its ambient geometry gate
(lines 312-315): fatal error unless the ambient metric is Euclidean. -/
def squareRootVelocityInverseChecked (amb : AmbientKind) {m d : ℕ}
    (srv : Fin m → Vec d) (startingPoint : Vec d) :
    Except SrvError (Fin (m + 1) → Vec d) :=
  if amb.isEuclidean then
    Except.ok (squareRootVelocityInverse srv startingPoint)
  else Except.error SrvError.unsupportedGeometry

/-- d_square_root_velocity with its ambient geometry gate (lines 337-341). -/
def dSquareRootVelocityChecked (amb : AmbientKind) {n d : ℕ}
    (tangentVec curve : Fin (n + 1) → Vec d) :
    Except SrvError (Fin n → Vec d) :=
  if amb.isEuclidean then Except.ok (dSquareRootVelocity tangentVec curve)
  else Except.error SrvError.unsupportedGeometry

/-- inner_product with its ambient geometry gate (lines 363-366). -/
def srvMetricInnerProductChecked (amb : AmbientKind) {n d : ℕ}
    (tangentVecA tangentVecB curve : Fin (n + 1) → Vec d) :
    Except SrvError ℝ :=
  if amb.isEuclidean then
    Except.ok (srvMetricInnerProduct tangentVecA tangentVecB curve)
  else Except.error SrvError.unsupportedGeometry

/-- exp with its ambient geometry gate (lines 432-435). -/
def srvExpChecked (amb : AmbientKind) {n d : ℕ}
    (tangentVec basePoint : Fin (n + 1) → Vec d) :
    Except SrvError (Fin (n + 1) → Vec d) :=
  if amb.isEuclidean then Except.ok (srvExp tangentVec basePoint)
  else Except.error SrvError.unsupportedGeometry

/-- log with its ambient geometry gate (lines 482-485). -/
def srvLogChecked (amb : AmbientKind) {n d : ℕ}
    (point basePoint : Fin (n + 1) → Vec d) :
    Except SrvError (Fin (n + 1) → Vec d) :=
  if amb.isEuclidean then Except.ok (srvLog point basePoint)
  else Except.error SrvError.unsupportedGeometry

/-- gs.allclose on curve-shaped arrays, with the numpy tolerance envelope:
every entry of the first array is within atol plus rtol times the
magnitude of the corresponding entry of the second array. -/
def allClose {n d : ℕ} (rtol atol : ℝ) (a b : Fin n → Vec d) : Prop :=
  ∀ i j, |a i j - b i j| ≤ atol + rtol * |b i j|

open Classical in
/-- SRVMetric.geodesic (lines 520-588): ambient geometry gate, argument
validation (an end curve or an initial tangent vector is required), the
consistency check between the shooting tangent vector computed by log and
a supplied tangent vector, and the returned path evaluating the
exponential map along the scaled tangent vector. -/
def geodesicChecked (amb : AmbientKind) (rtol atol : ℝ) {n d : ℕ}
    (initialCurve : Fin (n + 1) → Vec d)
    (endCurve initialTangentVec : Option (Fin (n + 1) → Vec d)) :
    Except SrvError (ℝ → Fin (n + 1) → Vec d) :=
  if amb.isEuclidean then
    match endCurve, initialTangentVec with
    | none, none => Except.error SrvError.invalidInput
    | none, some tv => Except.ok (fun t => srvExp (t • tv) initialCurve)
    | some ec, none =>
        Except.ok (fun t => srvExp (t • srvLog ec initialCurve) initialCurve)
    | some ec, some tv =>
        let shootingTangentVec := srvLog ec initialCurve
        if allClose rtol atol shootingTangentVec tv then
          Except.ok (fun t => srvExp (t • shootingTangentVec) initialCurve)
        else Except.error SrvError.inconsistentShootingVector
  else Except.error SrvError.unsupportedGeometry

/-- Curve of arbitrary shape: the number of sampling points and the
ambient dimension are data, so that mismatched shapes can be expressed. -/
structure RawCurve where
  numPoints : ℕ
  dim : ℕ
  pts : Fin numPoints → Fin dim → ℝ

/-- First sampling point of a curve, zero junk value on an empty curve
(the code would fail on an empty array; no claim concerns that case). -/
def firstPoint {n d : ℕ} (curve : Fin n → Vec d) : Vec d :=
  if h : 0 < n then curve ⟨0, h⟩ else 0

/-- Modelled from the spec: L2Metric.dist over indexed landmarks, the
square root of the sum of the squared ambient distances (section 6: the
L2 operations are the ambient operations lifted pointwise and aggregated,
with norm and dist following from the inner product). -/
def l2Dist {m d : ℕ} (a b : Fin m → Vec d) : ℝ :=
  Real.sqrt (∑ i, euclidDist (a i) (b i) ^ 2)

/-- Distance value of SRVMetric.dist (lines 611-617): square root of the
squared ambient distance of the starting points plus the squared L2
distance of the srv representations. -/
def srvDist {n d : ℕ} (pointA pointB : Fin n → Vec d) : ℝ :=
  let srvA := squareRootVelocity pointA
  let srvB := squareRootVelocity pointB
  let distStartingPoints := euclidDist (firstPoint pointA) (firstPoint pointB)
  let distSrvs := l2Dist srvA srvB
  Real.sqrt (distStartingPoints ^ 2 + distSrvs ^ 2)

/-- SRVMetric.dist (lines 590-619) with its gates: ambient geometry check
first, then the shape equality check, then the distance value. -/
def srvDistChecked (amb : AmbientKind) (a b : RawCurve) :
    Except SrvError ℝ :=
  if amb.isEuclidean then
    if h : a.numPoints = b.numPoints ∧ a.dim = b.dim then
      Except.ok
        (srvDist a.pts (fun i j => b.pts (Fin.cast h.1 i) (Fin.cast h.2 j)))
    else Except.error SrvError.shapeMismatch
  else Except.error SrvError.unsupportedGeometry

/-- Closure constraint of ClosedSRVMetric.project_srv (g_criterion,
lines 885-886): sum of the srv vectors scaled by their ambient norms. -/
def gCriterion {m : ℕ} (srv : Fin m → Vec 2) (srvNorms : Fin m → ℝ) :
    Vec 2 :=
  ∑ i, srvNorms i • srv i

/-- Convergence criterion of project_srv: ambient norm of the residual of
the closure constraint at the current projection (lines 890-892). -/
def projCriteria {m : ℕ} (proj : Fin m → Vec 2) : ℝ :=
  euclidNorm (gCriterion proj (fun i => euclidNorm (proj i)))

/-- One Newton update of project_srv before renormalization
(lines 898-923): jacobian from symmetric combinations of the column inner
products, linear solve for beta, Gram-Schmidt basis of the constraint
gradients under the srv inner product, and the downdate of the projection. -/
def projUpdate {m : ℕ} (proj : Fin m → Vec 2) : Fin m → Vec 2 :=
  let projNorms : Fin m → ℝ := fun i => euclidNorm (proj i)
  let residual : Vec 2 := gCriterion proj projNorms
  let col : Fin 2 → (Fin m → ℝ) := fun j i => proj i j
  let gJacobian : Matrix (Fin 2) (Fin 2) ℝ :=
    !![3 * euclidInner (col 0) (col 0), 3 * euclidInner (col 0) (col 1);
       3 * euclidInner (col 0) (col 1), 3 * euclidInner (col 1) (col 1)]
      + srvNorm proj ^ 2 • (1 : Matrix (Fin 2) (Fin 2) ℝ)
  let beta : Vec 2 := gJacobian⁻¹.mulVec residual
  let grad1 : Fin m → Vec 2 := fun i =>
    projNorms i • ![1, 0] + (proj i 0 / projNorms i) • proj i
  let grad2 : Fin m → Vec 2 := fun i =>
    projNorms i • ![0, 1] + (proj i 1 / projNorms i) • proj i
  let basisVector1 : Fin m → Vec 2 := fun i => (srvNorm grad1)⁻¹ • grad1 i
  let grad2Component : ℝ := srvInnerProduct grad2 basisVector1
  let grad2Proj : Fin m → Vec 2 := fun i => grad2Component • basisVector1 i
  let basisVector2Raw : Fin m → Vec 2 := fun i => grad2 i - grad2Proj i
  let basisVector2 : Fin m → Vec 2 := fun i =>
    (srvNorm basisVector2Raw)⁻¹ • basisVector2Raw i
  fun i => proj i - (beta 0 • basisVector1 i + beta 1 • basisVector2 i)

/-- Renormalization step of project_srv (line 924): rescale the projection
so that its srv norm is the initial srv norm. -/
def projRenormalize {m : ℕ} (initialNorm : ℝ) (proj : Fin m → Vec 2) :
    Fin m → Vec 2 :=
  fun i => (initialNorm / srvNorm proj) • proj i

/-- Full iteration of the Newton loop of project_srv: update followed by
renormalization. -/
def projStep {m : ℕ} (initialNorm : ℝ) (proj : Fin m → Vec 2) :
    Fin m → Vec 2 :=
  projRenormalize initialNorm (projUpdate proj)

open Classical in
/-- While loop of project_srv (lines 896-929): iterate while the residual
norm is at least atol and the iteration count is below max_iter.  The
fuel argument bounds the recursion; it is instantiated with max_iter. -/
def projectSrvLoop {m : ℕ} (atol : ℝ) (maxIter : ℕ) (initialNorm : ℝ) :
    ℕ → (Fin m → Vec 2) × ℕ → (Fin m → Vec 2) × ℕ
  | 0, s => s
  | fuel + 1, s =>
    if atol ≤ projCriteria s.1 ∧ s.2 < maxIter then
      projectSrvLoop atol maxIter initialNorm fuel
        (projStep initialNorm s.1, s.2 + 1)
    else s

/-- ClosedSRVMetric.project_srv (lines 848-931) after its planarity gate:
the Newton loop started at the input srv with zero iterations, returning
the final projection together with the number of iterations executed. -/
def projectSrv {m : ℕ} (srv : Fin m → Vec 2) (atol : ℝ) (maxIter : ℕ) :
    (Fin m → Vec 2) × ℕ :=
  projectSrvLoop atol maxIter (srvNorm srv) maxIter (srv, 0)

/-- project_srv with its planarity gate (lines 872-878): fatal error
unless the ambient metric is Euclidean of dimension 2. -/
def projectSrvChecked (amb : AmbientKind) {m : ℕ} (srv : Fin m → Vec 2)
    (atol : ℝ) (maxIter : ℕ) :
    Except SrvError ((Fin m → Vec 2) × ℕ) :=
  if amb.isPlanarEuclidean then Except.ok (projectSrv srv atol maxIter)
  else Except.error SrvError.unsupportedGeometry

/-- ClosedDiscreteCurves.project (lines 792-824) in the planar Euclidean
case: srv transform, projection onto the closure constraint, and inverse
transform from the first sampling point of the input curve. -/
def closedCurvesProject {n : ℕ} (curve : Fin (n + 1) → Vec 2) (atol : ℝ)
    (maxIter : ℕ) : Fin (n + 1) → Vec 2 :=
  squareRootVelocityInverse
    (projectSrv (squareRootVelocity curve) atol maxIter).1 (curve 0)

/-- Elastic metric parameter a of QuotientSRVMetric.split_horizontal_vertical
(line 979). -/
def aParam : ℝ := 1

/-- Elastic metric parameter b of split_horizontal_vertical (line 980). -/
def bParam : ℝ := 1 / 2

/-- Weight ratio of split_horizontal_vertical (line 981). -/
def quotientParam : ℝ := aParam / bParam

/-- Interior sample points of a curve with n interior points
(split_horizontal_vertical, line 983). -/
def interiorPosition {n d : ℕ} (curve : Fin (n + 2) → Vec d) :
    Fin n → Vec d :=
  fun i => curve ⟨i.1 + 1, by omega⟩

/-- Centered first difference of the curve at the interior points
(line 984). -/
def dPos {n d : ℕ} (curve : Fin (n + 2) → Vec d) : Fin n → Vec d :=
  fun i =>
    (1 / 2 : ℝ) • (curve ⟨i.1 + 2, by omega⟩ - curve ⟨i.1, by omega⟩)

/-- Centered first difference of the tangent field at the interior points
(line 985). -/
def dVec {n d : ℕ} (tangentVec : Fin (n + 2) → Vec d) : Fin n → Vec d :=
  fun i =>
    (1 / 2 : ℝ) •
      (tangentVec ⟨i.1 + 2, by omega⟩ - tangentVec ⟨i.1, by omega⟩)

/-- Centered second difference of the curve at the interior points
(line 986). -/
def d2Pos {n d : ℕ} (curve : Fin (n + 2) → Vec d) : Fin n → Vec d :=
  fun i =>
    curve ⟨i.1 + 2, by omega⟩ - (2 : ℝ) • curve ⟨i.1 + 1, by omega⟩
      + curve ⟨i.1, by omega⟩

/-- Centered second difference of the tangent field at the interior points
(lines 987-988). -/
def d2Vec {n d : ℕ} (tangentVec : Fin (n + 2) → Vec d) : Fin n → Vec d :=
  fun i =>
    tangentVec ⟨i.1 + 2, by omega⟩ - (2 : ℝ) • tangentVec ⟨i.1 + 1, by omega⟩
      + tangentVec ⟨i.1, by omega⟩

/-- Superdiagonal coefficients of the tridiagonal system of
split_horizontal_vertical (lines 990-991). -/
def vecA {n d : ℕ} (curve : Fin (n + 2) → Vec d) : Fin n → ℝ :=
  fun i =>
    pointwiseNorm (dPos curve) (interiorPosition curve) i ^ 2
      - 1 / 2 *
        pointwiseInnerProduct (d2Pos curve) (dPos curve)
          (interiorPosition curve) i

/-- Diagonal coefficients of the tridiagonal system (lines 992-996). -/
def vecB {n d : ℕ} (curve : Fin (n + 2) → Vec d) : Fin n → ℝ :=
  fun i =>
    -2 * pointwiseNorm (dPos curve) (interiorPosition curve) i ^ 2
      - quotientParam ^ 2 *
        (pointwiseNorm (d2Pos curve) (interiorPosition curve) i ^ 2
          - pointwiseInnerProduct (d2Pos curve) (dPos curve)
              (interiorPosition curve) i ^ 2
            / pointwiseNorm (dPos curve) (interiorPosition curve) i ^ 2)

/-- Subdiagonal coefficients of the tridiagonal system (lines 997-998). -/
def vecC {n d : ℕ} (curve : Fin (n + 2) → Vec d) : Fin n → ℝ :=
  fun i =>
    pointwiseNorm (dPos curve) (interiorPosition curve) i ^ 2
      + 1 / 2 *
        pointwiseInnerProduct (d2Pos curve) (dPos curve)
          (interiorPosition curve) i

/-- Right hand side of the tridiagonal system (lines 999-1006). -/
def vecD {n d : ℕ} (curve tangentVec : Fin (n + 2) → Vec d) : Fin n → ℝ :=
  fun i =>
    pointwiseNorm (dPos curve) (interiorPosition curve) i *
      (pointwiseInnerProduct (d2Vec tangentVec) (dPos curve)
          (interiorPosition curve) i
        - (quotientParam ^ 2 - 1) *
          pointwiseInnerProduct (dVec tangentVec) (d2Pos curve)
            (interiorPosition curve) i
        + (quotientParam ^ 2 - 2) *
          pointwiseInnerProduct (d2Pos curve) (dPos curve)
            (interiorPosition curve) i *
          pointwiseInnerProduct (dVec tangentVec) (dPos curve)
            (interiorPosition curve) i
          / pointwiseNorm (dPos curve) (interiorPosition curve) i ^ 2)

/-- Tridiagonal matrix assembled by split_horizontal_vertical
(lines 1008-1009): vec_a on the superdiagonal, vec_b on the diagonal and
vec_c on the subdiagonal. -/
def linearSystem {n d : ℕ} (curve : Fin (n + 2) → Vec d) :
    Matrix (Fin n) (Fin n) ℝ :=
  Matrix.of fun i j =>
    if j.1 = i.1 + 1 then vecA curve i
    else if j.1 = i.1 then vecB curve i
    else if i.1 = j.1 + 1 then vecC curve i
    else 0

/-- Modelled from the spec: np.linalg.solve is the external dense linear
solver (section 6); a vector of interior vertical norms is a solution of
the tridiagonal system with right hand side vec_d (lines 1010-1011). -/
def IsVerticalNormSolution {n d : ℕ} (curve tangentVec : Fin (n + 2) → Vec d)
    (verticalNormInterior : Fin n → ℝ) : Prop :=
  ∀ i, ∑ j, linearSystem curve i j * verticalNormInterior j
    = vecD curve tangentVec i

/-- Unit tangent of the curve at the interior points
(split_horizontal_vertical, lines 1015-1016). -/
def unitSpeed {n d : ℕ} (curve : Fin (n + 2) → Vec d) : Fin n → Vec d :=
  fun i =>
    (1 / pointwiseNorm (dPos curve) (interiorPosition curve) i) • dPos curve i

/-- Vertical part of the decomposed tangent vector (lines 1017-1020):
vertical norm times the unit tangent at the interior points, zero at the
two boundary points. -/
def tangentVecVer {n d : ℕ} (curve : Fin (n + 2) → Vec d)
    (verticalNormInterior : Fin n → ℝ) : Fin (n + 2) → Vec d :=
  fun j =>
    if h : 1 ≤ j.1 ∧ j.1 ≤ n then
      verticalNormInterior ⟨j.1 - 1, by omega⟩ •
        unitSpeed curve ⟨j.1 - 1, by omega⟩
    else 0

/-- Horizontal part of the decomposed tangent vector (line 1021): the
tangent vector minus its vertical part. -/
def tangentVecHor {n d : ℕ} (curve tangentVec : Fin (n + 2) → Vec d)
    (verticalNormInterior : Fin n → ℝ) : Fin (n + 2) → Vec d :=
  fun j => tangentVec j - tangentVecVer curve verticalNormInterior j

/-- Initial row of the reparametrization grid of construct_reparametrization
(horizontal_geodesic, lines 1038-1039): the uniform grid on the unit
interval, with the last column preset to one. -/
def repRow0 (nPoints : ℕ) : ℕ → ℝ :=
  fun j => if j = nPoints - 1 then 1 else (j : ℝ) / ((nPoints - 1 : ℕ) : ℝ)

open Classical in
/-- Forward Euler update of one time row of the reparametrization grid
(construct_reparametrization, lines 1040-1054): the first column uses the
forward one-sided spatial difference, interior columns use an upwind
difference whose direction is the sign of the local vertical norm, and the
last column keeps its preset value of one. -/
def repNext (nPoints nTimes : ℕ) (verticalNormRow spaceDerivNormRow : ℕ → ℝ)
    (r : ℕ → ℝ) : ℕ → ℝ :=
  fun j =>
    if j = 0 then
      r 0 + ((nPoints : ℝ) * (r 1 - r 0) * verticalNormRow 0
        / spaceDerivNormRow 0) / (nTimes : ℝ)
    else if j < nPoints - 1 then
      if 0 < verticalNormRow j then
        r j + ((nPoints : ℝ) * (r (j + 1) - r j) * verticalNormRow j
          / spaceDerivNormRow j) / (nTimes : ℝ)
      else
        r j + ((nPoints : ℝ) * (r j - r (j - 1)) * verticalNormRow j
          / spaceDerivNormRow j) / (nTimes : ℝ)
    else r j

/-- Reparametrization grid of construct_reparametrization
(lines 1032-1061): row zero is the uniform grid, each later row is the
forward Euler update of the previous row. -/
def constructReparametrization (nPoints nTimes : ℕ)
    (verticalNorm spaceDerivNorm : ℕ → ℕ → ℝ) : ℕ → ℕ → ℝ
  | 0 => repRow0 nPoints
  | i + 1 =>
    repNext nPoints nTimes (verticalNorm i) (spaceDerivNorm i)
      (constructReparametrization nPoints nTimes verticalNorm spaceDerivNorm i)

/-- Discrete velocity of a single curve: ambient logarithm between
consecutive sampling points scaled by the number of segments
(square_root_velocity, lines 283-285, single-curve form). -/
def segmentVelocity {n d : ℕ} (c : Fin (n + 1) → Vec d) : Fin n → Vec d :=
  fun i =>
    (n : ℝ) • euclidLog (c ⟨i.1 + 1, by omega⟩) (c ⟨i.1, by omega⟩)

/-- Concrete planar base curve with one interior sampling point, used to
evaluate the horizontal and vertical split: the points are the rows of
the array with rows 0 0, 1 1 and 2 0. -/
def cExample : Fin 3 → Vec 2 :=
  fun j => if j.1 = 0 then ![0, 0] else if j.1 = 1 then ![1, 1] else ![2, 0]

/-- Concrete tangent field along cExample: rows 0 0, 1 0 and 0 0. -/
def tExample : Fin 3 → Vec 2 :=
  fun j => if j.1 = 1 then ![1, 0] else ![0, 0]

/-- Concrete interior vertical norm: the exact solution of the one by one
tridiagonal system of the split at cExample and tExample. -/
def nuExample : Fin 1 → ℝ := ![1 / 9]

theorem euclidInner_self_nonneg {d : ℕ} (x : Vec d) : 0 ≤ euclidInner x x :=
  Finset.sum_nonneg fun j _ => mul_self_nonneg (x j)

theorem euclidNorm_nonneg {d : ℕ} (x : Vec d) : 0 ≤ euclidNorm x :=
  Real.sqrt_nonneg _

theorem euclidNorm_sq {d : ℕ} (x : Vec d) :
    euclidNorm x ^ 2 = euclidInner x x :=
  Real.sq_sqrt (euclidInner_self_nonneg x)

theorem euclidInner_smul_left {d : ℕ} (a : ℝ) (x y : Vec d) :
    euclidInner (a • x) y = a * euclidInner x y := by
  unfold euclidInner
  rw [Finset.mul_sum]
  exact Finset.sum_congr rfl fun j _ => by simp [mul_assoc]

theorem euclidInner_smul_right {d : ℕ} (a : ℝ) (x y : Vec d) :
    euclidInner x (a • y) = a * euclidInner x y := by
  unfold euclidInner
  rw [Finset.mul_sum]
  exact Finset.sum_congr rfl fun j _ => by simp; ring

theorem euclidInner_sub_left {d : ℕ} (x y z : Vec d) :
    euclidInner (x - y) z = euclidInner x z - euclidInner y z := by
  unfold euclidInner
  rw [← Finset.sum_sub_distrib]
  exact Finset.sum_congr rfl fun j _ => by simp [sub_mul]

theorem euclidInner_zero_right {d : ℕ} (x : Vec d) : euclidInner x 0 = 0 := by
  simp [euclidInner]

theorem euclidNorm_smul {d : ℕ} (a : ℝ) (x : Vec d) :
    euclidNorm (a • x) = |a| * euclidNorm x := by
  unfold euclidNorm
  rw [euclidInner_smul_left, euclidInner_smul_right, ← mul_assoc, ← sq,
    Real.sqrt_mul (sq_nonneg a), Real.sqrt_sq_eq_abs]

theorem constructReparametrization_zero (nPoints nTimes : ℕ)
    (vn sd : ℕ → ℕ → ℝ) :
    constructReparametrization nPoints nTimes vn sd 0 = repRow0 nPoints := rfl

theorem constructReparametrization_succ (nPoints nTimes : ℕ)
    (vn sd : ℕ → ℕ → ℝ) (i : ℕ) :
    constructReparametrization nPoints nTimes vn sd (i + 1)
      = repNext nPoints nTimes (vn i) (sd i)
          (constructReparametrization nPoints nTimes vn sd i) := rfl

/-- Claim C3: in the reparametrization-grid construction of
horizontal_geodesic, where the vertical norm rows produced by
split_horizontal_vertical vanish at the first column, every time row of
the grid returned by construct_reparametrization has first column zero
and last column one, and row zero is the uniform grid on the unit
interval. -/
theorem constructReparametrization_boundaries (nPoints nTimes : ℕ)
    (verticalNorm spaceDerivNorm : ℕ → ℕ → ℝ) (hn : 2 ≤ nPoints)
    (hv : ∀ i, verticalNorm i 0 = 0) :
    (∀ i, constructReparametrization nPoints nTimes verticalNorm
      spaceDerivNorm i 0 = 0)
    ∧ (∀ i, constructReparametrization nPoints nTimes verticalNorm
        spaceDerivNorm i (nPoints - 1) = 1)
    ∧ (∀ j, constructReparametrization nPoints nTimes verticalNorm
        spaceDerivNorm 0 j = (j : ℝ) / ((nPoints - 1 : ℕ) : ℝ)) := by
  have hrow0 : ∀ j, repRow0 nPoints j = (j : ℝ) / ((nPoints - 1 : ℕ) : ℝ) := by
    intro j
    unfold repRow0
    by_cases hj : j = nPoints - 1
    · rw [if_pos hj, hj, div_self]
      exact Nat.cast_ne_zero.mpr (by omega)
    · rw [if_neg hj]
  refine ⟨?_, ?_, ?_⟩
  · intro i
    induction i with
    | zero =>
      rw [constructReparametrization_zero, hrow0]
      simp
    | succ i ih =>
      rw [constructReparametrization_succ]
      unfold repNext
      rw [if_pos rfl, hv i, ih]
      ring
  · intro i
    induction i with
    | zero =>
      rw [constructReparametrization_zero]
      unfold repRow0
      rw [if_pos rfl]
    | succ i ih =>
      rw [constructReparametrization_succ]
      unfold repNext
      rw [if_neg (by omega), if_neg (by omega)]
      exact ih
  · intro j
    rw [constructReparametrization_zero, hrow0]

/-- Witness for claim C3 at a concrete grid. -/
theorem constructReparametrization_boundaries_witness :
    constructReparametrization 3 2 (fun _ _ => (0 : ℝ)) (fun _ _ => (1 : ℝ))
      5 0 = 0
    ∧ constructReparametrization 3 2 (fun _ _ => (0 : ℝ))
        (fun _ _ => (1 : ℝ)) 5 2 = 1 := by
  have h := constructReparametrization_boundaries 3 2
    (fun _ _ => (0 : ℝ)) (fun _ _ => (1 : ℝ)) (by norm_num) (fun _ => rfl)
  exact ⟨h.1 5, h.2.1 5⟩

theorem projectSrvLoop_zero {m : ℕ} (atol : ℝ) (maxIter : ℕ)
    (initialNorm : ℝ) (s : (Fin m → Vec 2) × ℕ) :
    projectSrvLoop atol maxIter initialNorm 0 s = s := rfl

open Classical in
theorem projectSrvLoop_succ {m : ℕ} (atol : ℝ) (maxIter : ℕ)
    (initialNorm : ℝ) (fuel : ℕ) (p : Fin m → Vec 2) (j : ℕ) :
    projectSrvLoop atol maxIter initialNorm (fuel + 1) (p, j)
      = if atol ≤ projCriteria p ∧ j < maxIter then
          projectSrvLoop atol maxIter initialNorm fuel
            (projStep initialNorm p, j + 1)
        else (p, j) := rfl

theorem projectSrvLoop_ends {m : ℕ} (atol : ℝ) (maxIter : ℕ)
    (initialNorm : ℝ) :
    ∀ (fuel : ℕ) (p : Fin m → Vec 2) (j : ℕ), j + fuel = maxIter →
      projCriteria (projectSrvLoop atol maxIter initialNorm fuel (p, j)).1
        < atol
      ∨ (projectSrvLoop atol maxIter initialNorm fuel (p, j)).2 = maxIter := by
  intro fuel
  induction fuel with
  | zero =>
    intro p j hj
    right
    rw [projectSrvLoop_zero]
    omega
  | succ fuel ih =>
    intro p j hj
    rw [projectSrvLoop_succ]
    by_cases hc : atol ≤ projCriteria p ∧ j < maxIter
    · rw [if_pos hc]
      exact ih _ (j + 1) (by omega)
    · rw [if_neg hc]
      push_neg at hc
      left
      by_contra hlt
      exact absurd (hc (not_lt.mp hlt)) (by omega)

/-- Claim C4: project_srv always returns: the Newton loop terminates with
either the residual norm of the closure constraint strictly below atol,
or the iteration count equal to max_iter, and in the latter case the
current projection is still returned as the first component. -/
theorem projectSrv_terminates {m : ℕ} (srv : Fin m → Vec 2) (atol : ℝ)
    (maxIter : ℕ) :
    projCriteria (projectSrv srv atol maxIter).1 < atol
    ∨ (projectSrv srv atol maxIter).2 = maxIter :=
  projectSrvLoop_ends atol maxIter (srvNorm srv) maxIter srv 0
    (Nat.zero_add maxIter)

/-- Claim C10: the closed-curve projection of a planar curve keeps the
first sampling point of the input curve: the projection modifies the srv
representation only and the inverse transform starts the reconstruction
at the first sampling point of the input. -/
theorem closedCurvesProject_startingPoint {n : ℕ}
    (curve : Fin (n + 1) → Vec 2) (atol : ℝ) (maxIter : ℕ) :
    closedCurvesProject curve atol maxIter 0 = curve 0 := by
  unfold closedCurvesProject squareRootVelocityInverse
  simp

theorem euclidNorm_pos {d : ℕ} (x : Vec d) (hx : 0 < euclidInner x x) :
    0 < euclidNorm x := Real.sqrt_pos.mpr hx

theorem keptIndices_eq_filter (N n : ℕ) (hn : 1 ≤ n) :
    keptIndices N n
      = (List.range (N * n)).filter (fun idx => ¬ ((idx + 1) % n = 0)) := by
  cases N with
  | zero => simp [keptIndices]
  | succ N =>
    unfold keptIndices
    have hpos : 0 < (N + 1) * n := Nat.mul_pos (Nat.succ_pos N) hn
    have h1 : (N + 1) * n = ((N + 1) * n - 1) + 1 := by omega
    have h2 : ((N + 1) * n - 1 + 1) % n = 0 := by
      rw [← h1]
      exact Nat.mul_mod_left (N + 1) n
    conv_rhs => rw [h1, List.range_succ]
    rw [List.filter_append]
    have h3 : List.filter (fun idx => ¬ ((idx + 1) % n = 0))
        [(N + 1) * n - 1] = [] := by
      simp [List.filter_cons, h2]
    rw [h3, List.append_nil]

theorem filter_full_flatMap (n : ℕ) (hn : 1 ≤ n) :
    ∀ N : ℕ,
      (List.range (N * n)).filter (fun idx => ¬ ((idx + 1) % n = 0))
        = (List.range N).flatMap
            (fun k => (List.range (n - 1)).map (fun i => k * n + i)) := by
  intro N
  induction N with
  | zero => simp
  | succ N ih =>
    have h1 : (N + 1) * n = N * n + n := by ring
    rw [h1, List.range_add, List.filter_append, ih, List.range_succ,
      List.flatMap_append, List.flatMap_singleton]
    congr 1
    rw [List.filter_map]
    have hcong : List.filter
          ((fun idx => decide ¬ ((idx + 1) % n = 0)) ∘ (N * n + ·))
          (List.range n)
        = List.filter (fun r => ¬ ((r + 1) % n = 0)) (List.range n) := by
      apply List.filter_congr
      intro a _
      have hmod : (N * n + (a + 1)) % n = (a + 1) % n := by
        rw [Nat.mul_comm N n, Nat.mul_add_mod]
      simp [Function.comp, Nat.add_assoc, hmod]
    rw [hcong]
    have h5 : List.filter (fun r => ¬ ((r + 1) % n = 0)) (List.range n)
        = List.range (n - 1) := by
      obtain ⟨m, rfl⟩ : ∃ m, n = m + 1 := ⟨n - 1, by omega⟩
      rw [List.range_succ, List.filter_append]
      have h3 : List.filter (fun r => ¬ ((r + 1) % (m + 1) = 0)) [m] = [] := by
        simp [List.filter_cons, Nat.mod_self]
      have h4 : List.filter (fun r => ¬ ((r + 1) % (m + 1) = 0))
          (List.range m) = List.range m := by
        rw [List.filter_eq_self]
        intro a ha
        have hlt : a < m := List.mem_range.mp ha
        have hm : (a + 1) % (m + 1) = a + 1 := Nat.mod_eq_of_lt (by omega)
        simp [hm]
      rw [h3, h4, List.append_nil]
      simp
    rw [h5]

theorem flatMapChunks_length (n : ℕ) :
    ∀ N : ℕ,
      ((List.range N).flatMap
          (fun k => (List.range (n - 1)).map (fun i => k * n + i))).length
        = N * (n - 1) := by
  intro N
  induction N with
  | zero => simp
  | succ N ih =>
    rw [List.range_succ, List.flatMap_append, List.flatMap_singleton,
      List.length_append, ih]
    simp [Nat.succ_mul]

theorem flatMapChunks_getD (n : ℕ) :
    ∀ N k i : ℕ, k < N → i < n - 1 →
      ((List.range N).flatMap
          (fun k => (List.range (n - 1)).map (fun i => k * n + i))).getD
        (k * (n - 1) + i) 0 = k * n + i := by
  intro N
  induction N with
  | zero => intro k i hk _; omega
  | succ N ih =>
    intro k i hk hi
    rw [List.range_succ, List.flatMap_append, List.flatMap_singleton]
    rcases Nat.lt_or_ge k N with hkN | hkN
    · have hlen : k * (n - 1) + i
          < ((List.range N).flatMap
              (fun k => (List.range (n - 1)).map (fun i => k * n + i))).length := by
        rw [flatMapChunks_length]
        calc k * (n - 1) + i < k * (n - 1) + (n - 1) := by omega
          _ = (k + 1) * (n - 1) := (Nat.succ_mul k (n - 1)).symm
          _ ≤ N * (n - 1) := Nat.mul_le_mul_right _ hkN
      rw [List.getD_append _ _ _ _ hlen]
      exact ih k i hkN hi
    · have hkeq : k = N := by omega
      subst hkeq
      have hge : ((List.range k).flatMap
            (fun k => (List.range (n - 1)).map (fun i => k * n + i))).length
          ≤ k * (n - 1) + i := by
        rw [flatMapChunks_length]
        omega
      rw [List.getD_append_right _ _ _ _ hge, flatMapChunks_length]
      have hidx : k * (n - 1) + i - k * (n - 1) = i := by omega
      rw [hidx]
      simp [List.getD_eq_getElem?_getD, List.getElem?_map,
        List.getElem?_range hi]

theorem keptIndices_getD (N n k i : ℕ) (hn : 1 ≤ n) (hk : k < N)
    (hi : i < n - 1) :
    (keptIndices N n).getD (k * (n - 1) + i) 0 = k * n + i := by
  rw [keptIndices_eq_filter N n hn, filter_full_flatMap n hn N,
    flatMapChunks_getD n N k i hk hi]

theorem flatten_apply {N n d : ℕ} (c : Fin N → Fin n → Vec d) (k i : ℕ)
    (hk : k < N) (hi : i < n) :
    flatten c (k * n + i) = c ⟨k, hk⟩ ⟨i, hi⟩ := by
  unfold flatten
  have hb : k * n + i < N * n := by
    calc k * n + i < k * n + n := by omega
      _ = (k + 1) * n := (Nat.succ_mul k n).symm
      _ ≤ N * n := Nat.mul_le_mul_right _ hk
  rw [dif_pos hb]
  have hdiv : (k * n + i) / n = k := by
    rw [Nat.add_comm, Nat.add_mul_div_right _ _ (by omega : 0 < n),
      Nat.div_eq_of_lt hi, Nat.zero_add]
  have hmod : (k * n + i) % n = i := by
    rw [Nat.add_comm, Nat.add_mul_mod_self_right, Nat.mod_eq_of_lt hi]
  simp only [hdiv, hmod]

theorem squareRootVelocityBatch_apply {N n d : ℕ}
    (c : Fin N → Fin (n + 1) → Vec d) (k : Fin N) (i : Fin n) :
    squareRootVelocityBatch c k i
      = (1 / Real.sqrt (euclidNorm (segmentVelocity (c k) i))) •
          segmentVelocity (c k) i := by
  unfold squareRootVelocityBatch
  have hgd : (keptIndices N (n + 1)).getD (k.1 * (n + 1 - 1) + i.1) 0
      = k.1 * (n + 1) + i.1 :=
    keptIndices_getD N (n + 1) k.1 i.1 (by omega) k.isLt (by omega)
  rw [hgd]
  unfold srvFlat velocityFlat
  have hf1 : flatten c (k.1 * (n + 1) + i.1) = c k ⟨i.1, by omega⟩ :=
    flatten_apply c k.1 i.1 k.isLt (by omega)
  have hf2 : flatten c (k.1 * (n + 1) + i.1 + 1) = c k ⟨i.1 + 1, by omega⟩ :=
    flatten_apply c k.1 (i.1 + 1) k.isLt (by omega)
  rw [hf1, hf2]
  rfl

theorem squareRootVelocity_apply {n d : ℕ} (c : Fin (n + 1) → Vec d)
    (i : Fin n) :
    squareRootVelocity c i
      = (1 / Real.sqrt (euclidNorm (segmentVelocity c i))) •
          segmentVelocity c i :=
  squareRootVelocityBatch_apply (fun _ : Fin 1 => c) 0 i

/-- Claim C9: the square root velocity transform on a batch of curves
sharing contiguous storage operates independently curve by curve: the
k-th row of the batched result equals the transform of the k-th curve
alone, the batch-boundary segments being masked out. -/
theorem squareRootVelocityBatch_curve_by_curve {N n d : ℕ}
    (c : Fin N → Fin (n + 1) → Vec d) (k : Fin N) :
    squareRootVelocityBatch c k = squareRootVelocity (c k) := by
  funext i
  rw [squareRootVelocityBatch_apply, squareRootVelocity_apply]

/-- Claim C1: for a curve with strictly positive segment speeds in a
Euclidean ambient space, square_root_velocity_inverse applied to the
square root velocity representation, with the first sampling point of the
curve as starting point, returns the original curve exactly in real
arithmetic. -/
theorem squareRootVelocity_roundtrip {n d : ℕ} (c : Fin (n + 1) → Vec d)
    (h : ∀ i : Fin n, 0 < euclidNorm (segmentVelocity c i)) :
    squareRootVelocityInverse (squareRootVelocity c) (c 0) = c := by
  funext j
  show c 0 + ∑ i ∈ Finset.range j.1,
      (if hi : i < n then
        ((1 / (n : ℝ)) * euclidNorm (squareRootVelocity c ⟨i, hi⟩)) •
          squareRootVelocity c ⟨i, hi⟩
      else 0) = c j
  have key : ∀ (i : ℕ) (hi : i < n),
      ((1 / (n : ℝ)) * euclidNorm (squareRootVelocity c ⟨i, hi⟩)) •
          squareRootVelocity c ⟨i, hi⟩
        = c ⟨i + 1, by omega⟩ - c ⟨i, by omega⟩ := by
    intro i hi
    have hvpos : 0 < euclidNorm (segmentVelocity c ⟨i, hi⟩) := h ⟨i, hi⟩
    have hsqrt : 0 < Real.sqrt (euclidNorm (segmentVelocity c ⟨i, hi⟩)) :=
      Real.sqrt_pos.mpr hvpos
    rw [squareRootVelocity_apply, euclidNorm_smul]
    have habs : |1 / Real.sqrt (euclidNorm (segmentVelocity c ⟨i, hi⟩))|
        = 1 / Real.sqrt (euclidNorm (segmentVelocity c ⟨i, hi⟩)) :=
      abs_of_nonneg (by positivity)
    rw [habs, smul_smul]
    have hcoef : 1 / (n : ℝ) *
          (1 / Real.sqrt (euclidNorm (segmentVelocity c ⟨i, hi⟩)) *
            euclidNorm (segmentVelocity c ⟨i, hi⟩)) *
          (1 / Real.sqrt (euclidNorm (segmentVelocity c ⟨i, hi⟩)))
        = 1 / (n : ℝ) := by
      have h1 : 1 / Real.sqrt (euclidNorm (segmentVelocity c ⟨i, hi⟩)) *
            euclidNorm (segmentVelocity c ⟨i, hi⟩) *
            (1 / Real.sqrt (euclidNorm (segmentVelocity c ⟨i, hi⟩))) = 1 := by
        field_simp
      rw [mul_assoc, h1, mul_one]
    rw [hcoef]
    unfold segmentVelocity euclidLog
    rw [smul_smul]
    have hn0 : (n : ℝ) ≠ 0 := Nat.cast_ne_zero.mpr (by omega)
    rw [one_div_mul_cancel hn0, one_smul]
  have hsum1 : ∑ i ∈ Finset.range j.1,
      (if hi : i < n then
        ((1 / (n : ℝ)) * euclidNorm (squareRootVelocity c ⟨i, hi⟩)) •
          squareRootVelocity c ⟨i, hi⟩
      else 0)
      = ∑ i ∈ Finset.range j.1,
        (if hi : i < n then c ⟨i + 1, by omega⟩ - c ⟨i, by omega⟩ else 0) :=
    Finset.sum_congr rfl fun i _ => by
      by_cases hi : i < n
      · rw [dif_pos hi, dif_pos hi, key i hi]
      · rw [dif_neg hi, dif_neg hi]
  rw [hsum1]
  have htel : ∀ (t : ℕ), ∀ ht : t ≤ n,
      ∑ i ∈ Finset.range t,
        (if hi : i < n then c ⟨i + 1, by omega⟩ - c ⟨i, by omega⟩ else 0)
      = c ⟨t, by omega⟩ - c 0 := by
    intro t
    induction t with
    | zero =>
      intro _
      simp [Fin.mk_zero]
    | succ t ih =>
      intro ht
      rw [Finset.sum_range_succ, ih (by omega), dif_pos (by omega : t < n)]
      abel
  rw [htel j.1 (Nat.lt_succ_iff.mp j.isLt), add_comm, sub_add_cancel]
  exact congrArg c (Fin.eta j j.isLt)

/-- Witness for claim C1 at the straight three-point planar segment. -/
theorem squareRootVelocity_roundtrip_witness :
    squareRootVelocityInverse
        (squareRootVelocity (![![0, 0], ![1, 0], ![2, 0]] : Fin 3 → Vec 2))
        ((![![0, 0], ![1, 0], ![2, 0]] : Fin 3 → Vec 2) 0)
      = (![![0, 0], ![1, 0], ![2, 0]] : Fin 3 → Vec 2) := by
  apply squareRootVelocity_roundtrip
  intro i
  apply euclidNorm_pos
  fin_cases i <;>
    norm_num [segmentVelocity, euclidLog, euclidInner, Fin.sum_univ_two]

theorem srvInnerProduct_smul {m d : ℕ} (a : ℝ) (p : Fin m → Vec d) :
    srvInnerProduct (fun i => a • p i) (fun i => a • p i)
      = a ^ 2 * srvInnerProduct p p := by
  unfold srvInnerProduct
  have hterm : ∀ i : Fin m,
      euclidInner (a • p i) (a • p i) = a ^ 2 * euclidInner (p i) (p i) := by
    intro i
    rw [euclidInner_smul_left, euclidInner_smul_right, ← mul_assoc, ← sq]
  rw [Finset.sum_congr rfl fun i _ => hterm i, ← Finset.mul_sum, mul_div_assoc]

theorem srvNorm_nonneg {m d : ℕ} (p : Fin m → Vec d) : 0 ≤ srvNorm p :=
  Real.sqrt_nonneg _

theorem srvNorm_smul {m d : ℕ} (a : ℝ) (p : Fin m → Vec d) :
    srvNorm (fun i => a • p i) = |a| * srvNorm p := by
  unfold srvNorm
  rw [srvInnerProduct_smul, Real.sqrt_mul (sq_nonneg a), Real.sqrt_sq_eq_abs]

theorem projRenormalize_norm {m : ℕ} (initialNorm : ℝ) (p : Fin m → Vec 2)
    (hp : srvNorm p ≠ 0) (hN : 0 ≤ initialNorm) :
    srvNorm (projRenormalize initialNorm p) = initialNorm := by
  unfold projRenormalize
  rw [srvNorm_smul]
  have hppos : 0 < srvNorm p := lt_of_le_of_ne (srvNorm_nonneg p) (Ne.symm hp)
  rw [abs_of_nonneg (div_nonneg hN hppos.le), div_mul_cancel₀ _ hp]

theorem projectSrvLoop_isIterate {m : ℕ} (atol : ℝ) (maxIter : ℕ) (N : ℝ)
    (srv : Fin m → Vec 2) :
    ∀ fuel : ℕ, ∀ j : ℕ,
      (projectSrvLoop atol maxIter N fuel ((projStep N)^[j] srv, j)).1
        = (projStep N)^[(projectSrvLoop atol maxIter N fuel
            ((projStep N)^[j] srv, j)).2] srv := by
  intro fuel
  induction fuel with
  | zero => intro j; rfl
  | succ fuel ih =>
    intro j
    rw [projectSrvLoop_succ]
    by_cases hc : atol ≤ projCriteria ((projStep N)^[j] srv) ∧ j < maxIter
    · rw [if_pos hc]
      have hit : projStep N ((projStep N)^[j] srv)
          = (projStep N)^[j + 1] srv :=
        (Function.iterate_succ_apply' (projStep N) j srv).symm
      rw [hit]
      exact ih (j + 1)
    · rw [if_neg hc]

/-- Claim C5: after every executed iteration of the Newton loop of
project_srv, and hence at return, the srv norm of the current projection
equals the srv norm of the input srv: the renormalization step restores
the initial norm exactly in real arithmetic, whenever the updated
projection it rescales has nonzero srv norm. -/
theorem projectSrv_norm_preserved {m : ℕ} (srv : Fin m → Vec 2) (atol : ℝ)
    (maxIter : ℕ)
    (h : ∀ k, k < (projectSrv srv atol maxIter).2 →
      srvNorm (projUpdate ((projStep (srvNorm srv))^[k] srv)) ≠ 0) :
    srvNorm (projectSrv srv atol maxIter).1 = srvNorm srv := by
  have hres : (projectSrv srv atol maxIter).1
      = (projStep (srvNorm srv))^[(projectSrv srv atol maxIter).2] srv :=
    projectSrvLoop_isIterate atol maxIter (srvNorm srv) srv maxIter 0
  obtain ⟨K, hK⟩ : ∃ K, (projectSrv srv atol maxIter).2 = K := ⟨_, rfl⟩
  rw [hK] at h hres
  rw [hres]
  cases K with
  | zero => rfl
  | succ K =>
    rw [Function.iterate_succ_apply']
    show srvNorm (projRenormalize (srvNorm srv)
        (projUpdate ((projStep (srvNorm srv))^[K] srv))) = srvNorm srv
    exact projRenormalize_norm (srvNorm srv) _ (h K (by omega))
      (srvNorm_nonneg srv)

/-- Witness for claim C5 at the straight-segment srv representation: the
Newton loop executes exactly one iteration, whose update has srv norm
5/7, and the renormalization rescales it back to the initial norm. -/
theorem projectSrv_norm_preserved_witness :
    (projectSrv (![![1, 0], ![1, 0]] : Fin 2 → Vec 2) 1 1).2 = 1
    ∧ srvNorm (projectSrv (![![1, 0], ![1, 0]] : Fin 2 → Vec 2) 1 1).1
      = srvNorm (![![1, 0], ![1, 0]] : Fin 2 → Vec 2) := by
  have hres : gCriterion (![![1, 0], ![1, 0]] : Fin 2 → Vec 2)
      (fun i => euclidNorm ((![![1, 0], ![1, 0]] : Fin 2 → Vec 2) i))
      = ![2, 0] := by
    funext j
    fin_cases j <;>
      norm_num [gCriterion, euclidNorm, euclidInner, Fin.sum_univ_two,
        Finset.sum_apply]
  have hcrit : projCriteria (![![1, 0], ![1, 0]] : Fin 2 → Vec 2) = 2 := by
    unfold projCriteria
    rw [hres]
    rw [show euclidNorm (![(2 : ℝ), 0]) = Real.sqrt 4 by
      norm_num [euclidNorm, euclidInner, Fin.sum_univ_two]]
    rw [show (4 : ℝ) = 2 ^ 2 by norm_num,
      Real.sqrt_sq (by norm_num : (0 : ℝ) ≤ 2)]
  have hstep : projectSrv (![![1, 0], ![1, 0]] : Fin 2 → Vec 2) 1 1
      = (projStep (srvNorm (![![1, 0], ![1, 0]] : Fin 2 → Vec 2))
          (![![1, 0], ![1, 0]] : Fin 2 → Vec 2), 1) := by
    show projectSrvLoop 1 1 (srvNorm (![![1, 0], ![1, 0]] : Fin 2 → Vec 2))
        (0 + 1) ((![![1, 0], ![1, 0]] : Fin 2 → Vec 2), 0) = _
    rw [projectSrvLoop_succ,
      if_pos ⟨by rw [hcrit]; norm_num, Nat.zero_lt_one⟩]
    rfl
  have hs4 : Real.sqrt 4 = 2 := by
    rw [show (4 : ℝ) = 2 ^ 2 by norm_num,
      Real.sqrt_sq (by norm_num : (0 : ℝ) ≤ 2)]
  have hinv : (!![(7 : ℝ), 0; 0, 1])⁻¹ = !![1 / 7, 0; 0, 1] :=
    Matrix.inv_eq_right_inv (by
      ext a b
      fin_cases a <;> fin_cases b <;>
        simp [Matrix.mul_apply, Matrix.one_apply, Fin.sum_univ_two])
  have hjac : !![3 * euclidInner
        (fun i => (![![1, 0], ![1, 0]] : Fin 2 → Vec 2) i 0)
        (fun i => (![![1, 0], ![1, 0]] : Fin 2 → Vec 2) i 0),
      3 * euclidInner
        (fun i => (![![1, 0], ![1, 0]] : Fin 2 → Vec 2) i 0)
        (fun i => (![![1, 0], ![1, 0]] : Fin 2 → Vec 2) i 1);
      3 * euclidInner
        (fun i => (![![1, 0], ![1, 0]] : Fin 2 → Vec 2) i 0)
        (fun i => (![![1, 0], ![1, 0]] : Fin 2 → Vec 2) i 1),
      3 * euclidInner
        (fun i => (![![1, 0], ![1, 0]] : Fin 2 → Vec 2) i 1)
        (fun i => (![![1, 0], ![1, 0]] : Fin 2 → Vec 2) i 1)]
      + srvNorm (![![1, 0], ![1, 0]] : Fin 2 → Vec 2) ^ 2
        • (1 : Matrix (Fin 2) (Fin 2) ℝ) = !![7, 0; 0, 1] := by
    ext a b
    fin_cases a <;> fin_cases b <;>
      norm_num [euclidInner, srvNorm, srvInnerProduct, euclidNorm,
        Fin.sum_univ_two, Matrix.one_apply]
  have hupd : projUpdate (![![1, 0], ![1, 0]] : Fin 2 → Vec 2)
      = fun _ => ![5 / 7, 0] := by
    funext i j
    simp only [projUpdate]
    rw [hjac, hinv, hres]
    fin_cases i <;> fin_cases j <;>
      norm_num [Matrix.mulVec, Matrix.dotProduct, euclidNorm, euclidInner,
        srvNorm, srvInnerProduct, Fin.sum_univ_two, Finset.sum_apply, hs4]
  have hne : srvNorm (projUpdate (![![1, 0], ![1, 0]] : Fin 2 → Vec 2))
      ≠ 0 := by
    rw [hupd]
    simp [srvNorm, srvInnerProduct, euclidInner, Fin.sum_univ_two,
      Real.sqrt_ne_zero']
  refine ⟨by rw [hstep], projectSrv_norm_preserved _ _ _ ?_⟩
  intro k hk
  rw [hstep] at hk
  have hk0 : k = 0 := Nat.lt_one_iff.mp hk
  subst hk0
  exact hne

/-- Claim C6: every operation requiring a flat ambient metric, namely the
srv inverse, the srv differential, the inner product, exp, log, geodesic,
dist and the closed-curve projection, raises a fatal unsupported-geometry
error when invoked with a non-Euclidean ambient metric, and the
projection also raises for a Euclidean metric of dimension other than
two; none of these operations returns a value in those cases. -/
theorem nonEuclidean_operations_error :
    (∀ amb : AmbientKind, amb.isEuclidean = false →
      (∀ (m d : ℕ) (srv : Fin m → Vec d) (sp : Vec d),
        squareRootVelocityInverseChecked amb srv sp
          = Except.error SrvError.unsupportedGeometry)
      ∧ (∀ (n d : ℕ) (tv c : Fin (n + 1) → Vec d),
        dSquareRootVelocityChecked amb tv c
          = Except.error SrvError.unsupportedGeometry)
      ∧ (∀ (n d : ℕ) (u v c : Fin (n + 1) → Vec d),
        srvMetricInnerProductChecked amb u v c
          = Except.error SrvError.unsupportedGeometry)
      ∧ (∀ (n d : ℕ) (tv b : Fin (n + 1) → Vec d),
        srvExpChecked amb tv b = Except.error SrvError.unsupportedGeometry)
      ∧ (∀ (n d : ℕ) (p b : Fin (n + 1) → Vec d),
        srvLogChecked amb p b = Except.error SrvError.unsupportedGeometry)
      ∧ (∀ (rtol atol : ℝ) (n d : ℕ) (ic : Fin (n + 1) → Vec d)
          (ec tv : Option (Fin (n + 1) → Vec d)),
        geodesicChecked amb rtol atol ic ec tv
          = Except.error SrvError.unsupportedGeometry)
      ∧ (∀ a b : RawCurve,
        srvDistChecked amb a b = Except.error SrvError.unsupportedGeometry)
      ∧ (∀ (m : ℕ) (srv : Fin m → Vec 2) (atol : ℝ) (maxIter : ℕ),
        projectSrvChecked amb srv atol maxIter
          = Except.error SrvError.unsupportedGeometry))
    ∧ (∀ dimA : ℕ, dimA ≠ 2 → ∀ (m : ℕ) (srv : Fin m → Vec 2)
        (atol : ℝ) (maxIter : ℕ),
      projectSrvChecked (AmbientKind.euclidean dimA) srv atol maxIter
        = Except.error SrvError.unsupportedGeometry) := by
  constructor
  · intro amb hamb
    have hplanar : amb.isPlanarEuclidean = false := by
      cases amb with
      | euclidean dim => simp [AmbientKind.isEuclidean] at hamb
      | sphere dim => rfl
      | hyperbolic dim => rfl
    refine ⟨?_, ?_, ?_, ?_, ?_, ?_, ?_, ?_⟩ <;> intros <;>
      simp [squareRootVelocityInverseChecked, dSquareRootVelocityChecked,
        srvMetricInnerProductChecked, srvExpChecked, srvLogChecked,
        geodesicChecked, srvDistChecked, projectSrvChecked, hamb, hplanar]
  · intro dimA hdim m srv atol maxIter
    simp [projectSrvChecked, AmbientKind.isPlanarEuclidean, hdim]

/-- Witness for claim C6 at a sphere ambient metric and a non-planar
Euclidean ambient metric. -/
theorem nonEuclidean_operations_error_witness :
    srvExpChecked (AmbientKind.sphere 2) (fun _ : Fin 1 => (0 : Vec 1))
        (fun _ : Fin 1 => (0 : Vec 1))
      = Except.error SrvError.unsupportedGeometry
    ∧ projectSrvChecked (AmbientKind.euclidean 3)
        (fun _ : Fin 1 => (0 : Vec 2)) 1 1
      = Except.error SrvError.unsupportedGeometry :=
  ⟨(nonEuclidean_operations_error.1 (AmbientKind.sphere 2) rfl).2.2.2.1 0 1
      (fun _ => 0) (fun _ => 0),
    nonEuclidean_operations_error.2 3 (by norm_num) 1 (fun _ => 0) 1 1⟩

open Classical in
/-- Claim C7: geodesic raises a fatal input error when neither an end
curve nor an initial tangent vector is supplied; when both are supplied
it raises a fatal consistency error if the shooting tangent vector
computed by log differs from the supplied tangent vector beyond the
allclose tolerance, and otherwise proceeds using the shooting tangent
vector. -/
theorem geodesic_argument_validation (rtol atol : ℝ) {n d : ℕ}
    (dimA : ℕ) (initialCurve : Fin (n + 1) → Vec d) :
    (geodesicChecked (AmbientKind.euclidean dimA) rtol atol initialCurve
        none none = Except.error SrvError.invalidInput)
    ∧ (∀ endCurve tv,
        ¬ allClose rtol atol (srvLog endCurve initialCurve) tv →
        geodesicChecked (AmbientKind.euclidean dimA) rtol atol initialCurve
            (some endCurve) (some tv)
          = Except.error SrvError.inconsistentShootingVector)
    ∧ (∀ endCurve tv,
        allClose rtol atol (srvLog endCurve initialCurve) tv →
        geodesicChecked (AmbientKind.euclidean dimA) rtol atol initialCurve
            (some endCurve) (some tv)
          = Except.ok (fun t =>
              srvExp (t • srvLog endCurve initialCurve) initialCurve)) := by
  refine ⟨rfl, ?_, ?_⟩
  · intro endCurve tv hcl
    show (if allClose rtol atol (srvLog endCurve initialCurve) tv then
        Except.ok (fun t =>
          srvExp (t • srvLog endCurve initialCurve) initialCurve)
      else Except.error SrvError.inconsistentShootingVector) = _
    rw [if_neg hcl]
  · intro endCurve tv hcl
    show (if allClose rtol atol (srvLog endCurve initialCurve) tv then
        Except.ok (fun t =>
          srvExp (t • srvLog endCurve initialCurve) initialCurve)
      else Except.error SrvError.inconsistentShootingVector) = _
    rw [if_pos hcl]

/-- Witness for claim C7 on concrete one-segment curves. -/
theorem geodesic_argument_validation_witness :
    (geodesicChecked (AmbientKind.euclidean 1) 0 1
        (fun _ : Fin 2 => (0 : Vec 1)) none none
      = Except.error SrvError.invalidInput)
    ∧ (geodesicChecked (AmbientKind.euclidean 1) 0 1
        (fun _ : Fin 2 => (0 : Vec 1))
        (some (fun _ => 0)) (some (fun _ _ => 10))
      = Except.error SrvError.inconsistentShootingVector)
    ∧ (geodesicChecked (AmbientKind.euclidean 1) 0 1
        (fun _ : Fin 2 => (0 : Vec 1))
        (some (fun _ => 0))
        (some (srvLog (fun _ => 0) (fun _ => 0)))
      = Except.ok (fun t =>
          srvExp (t • srvLog (fun _ : Fin 2 => (0 : Vec 1)) (fun _ => 0))
            (fun _ => 0))) := by
  have hval : srvLog (fun _ : Fin 2 => (0 : Vec 1)) (fun _ => 0) 0 0 = 0 := by
    simp [srvLog, euclidLog]
  refine ⟨(geodesic_argument_validation 0 1 1 (fun _ => 0)).1,
    (geodesic_argument_validation 0 1 1 (fun _ => 0)).2.1 (fun _ => 0)
      (fun _ _ => 10) ?_,
    (geodesic_argument_validation 0 1 1 (fun _ => 0)).2.2 (fun _ => 0)
      (srvLog (fun _ => 0) (fun _ => 0)) ?_⟩
  · intro hcl
    have hone := hcl 0 0
    rw [hval] at hone
    norm_num at hone
  · intro i j
    simp

/-- Claim C8: for two curves of equal shape in a Euclidean ambient space,
dist returns the square root of the squared ambient distance of the
starting points plus the squared L2 distance of the srv representations;
for mismatched shapes it raises a fatal error instead. -/
theorem srvDist_formula_and_shape_check (dimA : ℕ) (a b : RawCurve) :
    (¬ (a.numPoints = b.numPoints ∧ a.dim = b.dim) →
      srvDistChecked (AmbientKind.euclidean dimA) a b
        = Except.error SrvError.shapeMismatch)
    ∧ (∀ h : a.numPoints = b.numPoints ∧ a.dim = b.dim,
        srvDistChecked (AmbientKind.euclidean dimA) a b
          = Except.ok (Real.sqrt
              (euclidDist (firstPoint a.pts)
                  (firstPoint fun i j =>
                    b.pts (Fin.cast h.1 i) (Fin.cast h.2 j)) ^ 2
                + l2Dist (squareRootVelocity a.pts)
                    (squareRootVelocity fun i j =>
                      b.pts (Fin.cast h.1 i) (Fin.cast h.2 j)) ^ 2))) := by
  constructor
  · intro hne
    unfold srvDistChecked
    rw [if_pos (by rfl), dif_neg hne]
  · intro h
    unfold srvDistChecked
    rw [if_pos (by rfl), dif_pos h]
    rfl

/-- Witness for claim C8 at concrete mismatched and matching shapes. -/
theorem srvDist_formula_and_shape_check_witness :
    srvDistChecked (AmbientKind.euclidean 1)
        ⟨1, 1, fun _ _ => 0⟩ ⟨2, 1, fun _ _ => 0⟩
      = Except.error SrvError.shapeMismatch
    ∧ srvDistChecked (AmbientKind.euclidean 1)
        ⟨2, 1, fun _ _ => 0⟩ ⟨2, 1, fun _ _ => 0⟩
      = Except.ok (Real.sqrt
          (euclidDist (firstPoint (fun _ _ => (0 : ℝ) : Fin 2 → Vec 1))
              (firstPoint (fun _ _ => (0 : ℝ) : Fin 2 → Vec 1)) ^ 2
            + l2Dist (squareRootVelocity (fun _ _ => (0 : ℝ) : Fin 2 → Vec 1))
                (squareRootVelocity
                  (fun _ _ => (0 : ℝ) : Fin 2 → Vec 1)) ^ 2)) := by
  constructor
  · exact (srvDist_formula_and_shape_check 1 _ _).1 (by decide)
  · exact (srvDist_formula_and_shape_check 1 _ _).2 ⟨rfl, rfl⟩

theorem cExample_ip_dd :
    pointwiseInnerProduct (dPos cExample) (dPos cExample)
      (interiorPosition cExample) 0 = 1 := by
  norm_num [pointwiseInnerProduct, euclidInner, dPos, cExample,
    Fin.sum_univ_two]

theorem cExample_ip_2d :
    pointwiseInnerProduct (d2Pos cExample) (dPos cExample)
      (interiorPosition cExample) 0 = 0 := by
  norm_num [pointwiseInnerProduct, euclidInner, dPos, d2Pos, cExample,
    Fin.sum_univ_two]

theorem cExample_ip_22 :
    pointwiseInnerProduct (d2Pos cExample) (d2Pos cExample)
      (interiorPosition cExample) 0 = 4 := by
  norm_num [pointwiseInnerProduct, euclidInner, d2Pos, cExample,
    Fin.sum_univ_two]

theorem cExample_ip_d2v :
    pointwiseInnerProduct (d2Vec tExample) (dPos cExample)
      (interiorPosition cExample) 0 = -2 := by
  norm_num [pointwiseInnerProduct, euclidInner, dPos, d2Vec, cExample,
    tExample, Fin.sum_univ_two]

theorem cExample_ip_dv2 :
    pointwiseInnerProduct (dVec tExample) (d2Pos cExample)
      (interiorPosition cExample) 0 = 0 := by
  norm_num [pointwiseInnerProduct, euclidInner, d2Pos, dVec, cExample,
    tExample, Fin.sum_univ_two]

theorem cExample_ip_dvd :
    pointwiseInnerProduct (dVec tExample) (dPos cExample)
      (interiorPosition cExample) 0 = 0 := by
  norm_num [pointwiseInnerProduct, euclidInner, dPos, dVec, cExample,
    tExample, Fin.sum_univ_two]

theorem cExample_pn :
    pointwiseNorm (dPos cExample) (interiorPosition cExample) 0 = 1 := by
  unfold pointwiseNorm
  rw [cExample_ip_dd, Real.sqrt_one]

theorem cExample_pn2_sq :
    pointwiseNorm (d2Pos cExample) (interiorPosition cExample) 0 ^ 2 = 4 := by
  unfold pointwiseNorm
  rw [cExample_ip_22]
  exact Real.sq_sqrt (by norm_num)

theorem quotientParam_eq : quotientParam = 2 := by
  norm_num [quotientParam, aParam, bParam]

theorem cExample_vecB : vecB cExample 0 = -18 := by
  unfold vecB
  rw [quotientParam_eq, cExample_pn, cExample_pn2_sq, cExample_ip_2d]
  norm_num

theorem cExample_vecD : vecD cExample tExample 0 = -2 := by
  unfold vecD
  rw [quotientParam_eq, cExample_pn, cExample_ip_d2v, cExample_ip_dv2,
    cExample_ip_dvd]
  norm_num

theorem cExample_solution :
    IsVerticalNormSolution cExample tExample nuExample := by
  intro i
  have hi : i = 0 := Subsingleton.elim i 0
  subst hi
  rw [Fin.sum_univ_one]
  have hL : linearSystem cExample (0 : Fin 1) (0 : Fin 1)
      = vecB cExample 0 := by
    unfold linearSystem
    rw [Matrix.of_apply, if_neg (by omega), if_pos rfl]
  rw [hL, cExample_vecB, cExample_vecD]
  norm_num [nuExample]

theorem cExample_dPos_inner :
    ∀ i : Fin 1, 0 < euclidInner (dPos cExample i) (dPos cExample i) := by
  intro i
  have hi : i = 0 := Subsingleton.elim i 0
  subst hi
  have h : euclidInner (dPos cExample 0) (dPos cExample 0) = 1 :=
    cExample_ip_dd
  rw [h]
  norm_num

/-- Counterexample for claim C2: at a concrete planar curve, tangent
field, and exact solution of the tridiagonal system of
split_horizontal_vertical, the pointwise inner product of the returned
horizontal and vertical parts at the interior sample point equals 8/81
and is not zero, refuting pointwise orthogonality at the interior
samples. -/
theorem splitHorizontalVertical_not_pointwise_orthogonal :
    IsVerticalNormSolution cExample tExample nuExample
    ∧ pointwiseInnerProduct (tangentVecHor cExample tExample nuExample)
        (tangentVecVer cExample nuExample) cExample ⟨1, by omega⟩ ≠ 0 := by
  refine ⟨cExample_solution, ?_⟩
  have hver : tangentVecVer cExample nuExample ⟨1, by omega⟩
      = nuExample 0 • unitSpeed cExample 0 := by
    unfold tangentVecVer
    rw [dif_pos (by omega : 1 ≤ (1 : ℕ) ∧ 1 ≤ 1)]
    rfl
  have hunit : unitSpeed cExample 0 = dPos cExample 0 := by
    unfold unitSpeed
    rw [cExample_pn]
    norm_num
  have hval : pointwiseInnerProduct
      (tangentVecHor cExample tExample nuExample)
      (tangentVecVer cExample nuExample) cExample ⟨1, by omega⟩ = 8 / 81 := by
    unfold pointwiseInnerProduct tangentVecHor
    rw [hver, hunit]
    norm_num [euclidInner, dPos, cExample, tExample, nuExample,
      Fin.sum_univ_two]
  rw [hval]
  norm_num

/-- Claim C2 (amended): the split decomposes the tangent vector into a
vertical part that is a scalar multiple of the unit tangent at each
interior point and a horizontal remainder; the pointwise inner product
of the horizontal and vertical parts vanishes at the two boundary sample
points, while at the interior sample point of index i it equals the
vertical norm at i times the difference between the component of the
tangent vector along the unit tangent and the vertical norm, which is
nonzero in general. -/
theorem splitHorizontalVertical_pointwise_inner {n d : ℕ}
    (curve tangentVec : Fin (n + 2) → Vec d) (vn : Fin n → ℝ)
    (_hsol : IsVerticalNormSolution curve tangentVec vn)
    (hpos : ∀ i : Fin n, 0 < euclidInner (dPos curve i) (dPos curve i)) :
    pointwiseInnerProduct (tangentVecHor curve tangentVec vn)
        (tangentVecVer curve vn) curve ⟨0, by omega⟩ = 0
    ∧ pointwiseInnerProduct (tangentVecHor curve tangentVec vn)
        (tangentVecVer curve vn) curve ⟨n + 1, by omega⟩ = 0
    ∧ ∀ i : Fin n,
        pointwiseInnerProduct (tangentVecHor curve tangentVec vn)
            (tangentVecVer curve vn) curve ⟨i.1 + 1, by omega⟩
          = vn i * (euclidInner (tangentVec ⟨i.1 + 1, by omega⟩)
              (unitSpeed curve i) - vn i) := by
  refine ⟨?_, ?_, ?_⟩
  · show euclidInner (tangentVecHor curve tangentVec vn ⟨0, by omega⟩)
      (tangentVecVer curve vn ⟨0, by omega⟩) = 0
    have hv0 : tangentVecVer curve vn ⟨0, by omega⟩ = 0 := by
      unfold tangentVecVer
      rw [dif_neg (fun hcon => Nat.not_succ_le_zero 0 hcon.1)]
    rw [hv0, euclidInner_zero_right]
  · show euclidInner (tangentVecHor curve tangentVec vn ⟨n + 1, by omega⟩)
      (tangentVecVer curve vn ⟨n + 1, by omega⟩) = 0
    have hv1 : tangentVecVer curve vn ⟨n + 1, by omega⟩ = 0 := by
      unfold tangentVecVer
      rw [dif_neg (fun hcon => absurd (hcon.2 : n + 1 ≤ n) (by omega))]
    rw [hv1, euclidInner_zero_right]
  · intro i
    have hS : 0 < euclidInner (dPos curve i) (dPos curve i) := hpos i
    have hver : tangentVecVer curve vn ⟨i.1 + 1, by omega⟩
        = vn i • unitSpeed curve i := by
      unfold tangentVecVer
      rw [dif_pos ⟨Nat.succ_le_succ (Nat.zero_le i.1), i.isLt⟩]
      rfl
    have huu : euclidInner (unitSpeed curve i) (unitSpeed curve i) = 1 := by
      unfold unitSpeed pointwiseNorm pointwiseInnerProduct
      rw [euclidInner_smul_left, euclidInner_smul_right, ← mul_assoc,
        div_mul_div_comm, one_mul, Real.mul_self_sqrt hS.le,
        one_div_mul_cancel (ne_of_gt hS)]
    show euclidInner (tangentVec ⟨i.1 + 1, by omega⟩
        - tangentVecVer curve vn ⟨i.1 + 1, by omega⟩)
      (tangentVecVer curve vn ⟨i.1 + 1, by omega⟩) = _
    rw [hver, euclidInner_sub_left]
    simp only [euclidInner_smul_left, euclidInner_smul_right]
    rw [huu]
    ring

/-- Witness for the amended claim C2 at the concrete example. -/
theorem splitHorizontalVertical_pointwise_inner_witness :
    pointwiseInnerProduct (tangentVecHor cExample tExample nuExample)
        (tangentVecVer cExample nuExample) cExample ⟨0, by omega⟩ = 0
    ∧ pointwiseInnerProduct (tangentVecHor cExample tExample nuExample)
        (tangentVecVer cExample nuExample) cExample ⟨0 + 1, by omega⟩
      = nuExample 0 * (euclidInner (tExample ⟨0 + 1, by omega⟩)
          (unitSpeed cExample 0) - nuExample 0) := by
  have h := splitHorizontalVertical_pointwise_inner cExample tExample
    nuExample cExample_solution cExample_dPos_inner
  exact ⟨h.1, h.2.2 0⟩

end

end DiscreteCurves
